import Mathlib

/-!
Verification development for the storyboard-authoring service layer
(`src/services/geminiService.ts`, `src/unnamed/part_000`, `src/utils/storage.ts`).

The TypeScript code is shallowly embedded:

* Strings are Lean `String`s; character-level operations (regex replaces,
  `trim`, `split`) are modelled on `List Char` with an explicit predicate
  `jsWhitespace` covering exactly the ECMAScript whitespace / line-terminator
  set (which is what both `\s` and `String.prototype.trim` use, and which
  contains U+FEFF and U+00A0).
* An asynchronous fallible operation is modelled as a trace
  `Nat → Outcome α`: the value `op a` is what the `a`-th invocation of the
  operation does (succeed with a value, or reject with an error message).
  Errors are identified with their message strings, since the code only ever
  inspects `error.message`.
* `JSON.parse` of the fence-stripped response text is an external builtin, so
  a model response is abstracted to its parse outcome
  `Except String Json` (`.error m` = `JSON.parse` throws with message `m`,
  `.ok j` = it returns the value `j`).  `Json` is a deep embedding of
  JavaScript JSON values.
* Waiting (`sleep`) is modelled by accumulating the requested wait time.
* JavaScript objects (the persisted settings record) are association lists
  `List (String × Json)` with JS property lookup / assignment / delete /
  spread modelled by `objGet` / `objSet` / `objDelete` / `spreadObj`.
-/

/-- ECMAScript whitespace and line terminators: the character class matched by
`\s` in a JS regex and stripped by `String.prototype.trim`.  It includes
U+00A0 (NBSP) and U+FEFF (BOM). -/
def jsWhitespace (c : Char) : Bool :=
  let n := c.toNat
  n = 9 || n = 10 || n = 11 || n = 12 || n = 13 || n = 32 || n = 0xA0 || n = 0x1680 ||
  (0x2000 ≤ n && n ≤ 0x200A) || n = 0x2028 || n = 0x2029 || n = 0x202F || n = 0x205F ||
  n = 0x3000 || n = 0xFEFF

/-- Model of `String.prototype.trim` on the character list: drop JS whitespace from
both ends. -/
def jsTrimList (cs : List Char) : List Char :=
  ((cs.dropWhile jsWhitespace).reverse.dropWhile jsWhitespace).reverse

/-- Model of `s.includes(pat)` on character lists: `pat` occurs contiguously in the
list. -/
def containsSub (pat : List Char) : List Char → Bool
  | [] => pat.isEmpty
  | c :: t => pat.isPrefixOf (c :: t) || containsSub pat t

/-- Model of `s.includes(pat)` for strings (JS `String.prototype.includes`). -/
def strContains (s pat : String) : Bool := containsSub pat.toList s.toList

/-- Model of `s.split(sep)` for a single separator character, JS semantics:
`"".split` gives `[""]`, a trailing separator yields a trailing empty
segment. -/
def splitOnChar (sep : Char) : List Char → List (List Char)
  | [] => [[]]
  | c :: rest =>
    let r := splitOnChar sep rest
    if c = sep then [] :: r
    else
      match r with
      | [] => [[c]]
      | h :: t => (c :: h) :: t

/-- Deep embedding of JavaScript JSON values (numbers carried as integers;
the code never computes with them, it only inspects shapes). -/
inductive Json where
  | null : Json
  | bool (b : Bool) : Json
  | num (n : Int) : Json
  | str (s : String) : Json
  | arr (elems : List Json) : Json
  | obj (fields : List (String × Json)) : Json

/-- JS truthiness of a JSON value (`[]` and `{}` are truthy). -/
def jsTruthy : Json → Bool
  | .null => false
  | .bool b => b
  | .num n => !(n == 0)
  | .str s => !(s == "")
  | .arr _ => true
  | .obj _ => true

/-- JS property read `v[k]`: `some` the field value on an object that has the
key, `none` (undefined) otherwise. -/
def jsField : Json → String → Option Json
  | .obj fields, k => (fields.find? (fun p => p.1 == k)).map (fun p => p.2)
  | _, _ => none

/-- One invocation of an asynchronous operation: fulfil with a value or
reject with an error message. -/
inductive Outcome (α : Type) where
  | ok (v : α) : Outcome α
  | err (msg : String) : Outcome α

/-- Whether an `Outcome` is a rejection. -/
def outcomeIsErr {α : Type} : Outcome α → Bool
  | .ok _ => false
  | .err _ => true

/-! ### Key / URL normalizer (src/services/geminiService.ts, src/unnamed/part_000) -/

/-- Model of `replace(/\/+$/, '')`: remove all trailing `'/'` characters. -/
def stripTrailingSlashes (cs : List Char) : List Char :=
  (cs.reverse.dropWhile (fun c => c == '/')).reverse

/-- The well-known official endpoint checked by `cleanBaseUrl`. -/
def officialBaseUrl : String := "https://generativelanguage.googleapis.com"

/-- The version-suffix stripping of `cleanBaseUrl`: at most one trailing
suffix, `endsWith('/v1beta')` (dropping 7 characters) checked before
`endsWith('/v1')` (dropping 3). -/
def stripVersionSuffix (c1 : List Char) : List Char :=
  if ("/v1beta".toList).isSuffixOf c1 then c1.take (c1.length - 7)
  else if ("/v1".toList).isSuffixOf c1 then c1.take (c1.length - 3)
  else c1

/-- The final step of `cleanBaseUrl`: the official endpoint signals "no
override". -/
def officialCheck (c3 : List Char) : Option String :=
  if c3 = officialBaseUrl.toList then none else some (String.mk c3)

/-- Embedding of `cleanBaseUrl` from src/services/geminiService.ts lines 6-28 (identical in
src/unnamed/part_000 lines 5-28): `undefined`/blank input gives `undefined`;
otherwise trim, strip trailing slashes, strip one trailing `/v1beta` (7 chars)
or else one trailing `/v1` (3 chars), strip trailing slashes again, and map
the official endpoint to `undefined`. -/
def cleanBaseUrl : Option String → Option String
  | none => none
  | some url =>
    if jsTrimList url.toList = [] then none
    else
      officialCheck (stripTrailingSlashes (stripVersionSuffix
        (stripTrailingSlashes (jsTrimList url.toList))))

/-- The regex `/^Bearer\s+/i` applied with `replace`: if the list starts with
`Bearer` case-insensitively followed by at least one JS whitespace character,
drop that match (greedily through all following whitespace). -/
def stripBearer (cs : List Char) : List Char :=
  if (cs.take 6).map Char.toLower = "bearer".toList then
    match cs.drop 6 with
    | [] => cs
    | c :: rest => if jsWhitespace c then (c :: rest).dropWhile jsWhitespace else cs
  else cs

/-- Embedding of `cleanApiKey` from src/services/geminiService.ts lines 31-34:
`key.replace(/[\s\uFEFF\xA0]+/g, '').replace(/^Bearer\s+/i, '')`.
The first replace removes every JS whitespace / BOM / NBSP character
(`\s` already contains U+FEFF and U+00A0), the second then tries to strip a
leading `Bearer` followed by whitespace. -/
def cleanApiKey (key : String) : String :=
  if key = "" then ""
  else String.mk (stripBearer (key.toList.filter (fun c => !jsWhitespace c)))

/-- Embedding of `cleanApiKey` from src/unnamed/part_000 lines 31-36: that revision only
trims the key (`return key.trim()`). -/
def cleanApiKeyTrim (key : String) : String :=
  if key = "" then "" else String.mk (jsTrimList key.toList)

/-! ### Error classifier (src/unnamed/part_000 lines 39-52) -/

/-- Embedding of `formatError` from src/unnamed/part_000 lines 39-52: substring-match the
message against an ordered chain of patterns and substitute a localized
display string, else pass the message through; always return it prefixed with
the context label.  (The revision in src/services/geminiService.ts lines
37-50 differs only in the wording of the 400/404 display strings.) -/
def formatError (msg context : String) : String :=
  let m :=
    if strContains msg "400" then "请求无效 (400) - 代理不支持此模型名，或需要 role:user 字段 (已尝试修复)"
    else if strContains msg "401" then "API Key 无效或未授权 (401) - 请检查余额或 Key 是否正确"
    else if strContains msg "403" then "API Key 权限不足 (403)"
    else if strContains msg "404" then "地址错误 (404) - 代理地址路径不匹配"
    else if strContains msg "429" then "请求过于频繁/额度耗尽 (429)"
    else if strContains msg "500" then "AI 服务内部错误 (500)"
    else if strContains msg "503" then "服务暂时不可用 (503)"
    else if strContains msg "Failed to fetch" || strContains msg "NetworkError" then
      "网络连接失败 (请检查代理地址/VPN/跨域设置)"
    else msg
  context ++ ": " ++ m

/-! ### Retry wrapper (src/unnamed/part_000 lines 58-84, identical in
src/services/geminiService.ts lines 56-82) -/

/-- The transient-marker test of `retryOperation`: retry on messages
containing `429`, `503`, `Quota exceeded`, `NetworkError` or
`Failed to fetch`. -/
def isTransientError (msg : String) : Bool :=
  strContains msg "429" || strContains msg "503" || strContains msg "Quota exceeded" ||
  strContains msg "NetworkError" || strContains msg "Failed to fetch"

/-- Result of one run of the retry wrapper: the settled value (or the error
it rethrows), the number of invocations of the operation, and the total wait
time requested from `sleep`. -/
structure RetryResult (α : Type) where
  result : Except String α
  invocations : Nat
  totalWait : Nat

/-- The `for (let attempt = 0; attempt <= maxRetries; attempt++)` loop of
`retryOperation`, with the remaining number of loop iterations as fuel
(`fuel = maxRetries + 1 - attempt`; the loop body either returns, throws, or
increments `attempt`).  The fuel-exhausted case is the trailing
`throw lastError` after the loop, which is unreachable. -/
def retryLoop {α : Type} (op : Nat → Outcome α) (maxRetries baseDelay : Nat) :
    Nat → Nat → Nat → Nat → Option String → RetryResult α
  | 0, _, inv, wait, lastErr => ⟨.error (lastErr.getD ""), inv, wait⟩
  | fuel + 1, attempt, inv, wait, _ =>
    match op attempt with
    | .ok v => ⟨.ok v, inv + 1, wait⟩
    | .err msg =>
      if isTransientError msg && decide (attempt < maxRetries) then
        retryLoop op maxRetries baseDelay fuel (attempt + 1) (inv + 1)
          (wait + baseDelay * 2 ^ attempt) (some msg)
      else ⟨.error msg, inv + 1, wait⟩

/-- Embedding of `retryOperation` from src/unnamed/part_000 lines 58-84: run the
operation up to `maxRetries + 1` times, waiting `baseDelay * 2 ^ attempt`
before each retry of a transient-marked failure; rethrow a non-transient
failure (or a transient one with no attempts left) immediately. -/
def retryOperation {α : Type} (op : Nat → Outcome α) (maxRetries baseDelay : Nat) :
    RetryResult α :=
  retryLoop op maxRetries baseDelay (maxRetries + 1) 0 0 0 none

/-! ### Call orchestrator (src/unnamed/part_000 lines 112-142) -/

/-- Embedding of `executeGeminiCall` from src/unnamed/part_000 lines 112-142: fail fast
with a configuration error when the cleaned key is empty, otherwise run the
operation through `retryOperation` with the default budget
(`maxRetries = 3`, `baseDelay = 2000`) and re-raise any terminal error
through `formatError` tagged with the context label. -/
def executeGeminiCall {α : Type} (apiKey : String) (op : Nat → Outcome α)
    (contextName : String) : Except String α :=
  if cleanApiKeyTrim apiKey = "" then .error "未配置 API Key"
  else
    match (retryOperation op 3 2000).result with
    | .ok v => .ok v
    | .error msg => .error (formatError msg contextName)

/-! ### Connectivity prober (src/unnamed/part_000 lines 148-196) -/

/-- Embedding of `DEFAULT_TEXT_MODELS` from the types module (value/label pairs). -/
def DEFAULT_TEXT_MODELS : List (String × String) :=
  [("gemini-2.5-pro", "gemini-2.5-pro"),
   ("gemini-3-pro-preview", "gemini-3-pro-preview"),
   ("gemini-1.5-pro", "gemini-1.5-pro"),
   ("gemini-2.5-flash", "gemini-2.5-flash")]

/-- Worker for `dedupFirst` carrying the set of already-seen entries. -/
def dedupFirstAux (seen : List String) : List String → List String
  | [] => []
  | x :: xs =>
    if seen.contains x then dedupFirstAux seen xs
    else x :: dedupFirstAux (x :: seen) xs

/-- Model of `[...new Set(list)]`: de-duplicate preserving first-seen order. -/
def dedupFirst (l : List String) : List String := dedupFirstAux [] l

/-- The `for (const modelName of modelsToTry)` loop of `testApiConnection`:
skip empty names, return the first model whose ping fulfils, remember the
last rejection; when the list is exhausted raise the classified error built
from the last failure (`String(null) = "null"` when there never was one).
Also returns the list of models actually pinged, in order. -/
def testLoop (ping : String → Outcome Unit) :
    List String → Option String → Except String String × List String
  | [], lastErr =>
    (.error (formatError (lastErr.getD "null") "所有模型连接测试均失败"), [])
  | m :: rest, lastErr =>
    if m = "" then testLoop ping rest lastErr
    else
      match ping m with
      | .ok _ => (.ok m, [m])
      | .err e =>
        let r := testLoop ping rest (some e)
        (r.1, m :: r.2)

/-- Embedding of `testApiConnection` from src/unnamed/part_000 lines 148-196: fail when
the cleaned key is empty, otherwise try
`[...new Set([...priorityModels, ...DEFAULT_TEXT_MODELS.map(m => m.value)])]`
in order until one ping succeeds.  The ping of one model is abstracted as
`ping : String → Outcome Unit` (the single-turn `generateContent` request);
the base URL only configures the client and is behaviourally inert here. -/
def testApiConnection (apiKey baseUrl : String) (priorityModels : List String)
    (ping : String → Outcome Unit) : Except String String × List String :=
  if cleanApiKeyTrim apiKey = "" then (.error "API Key 为空", [])
  else
    testLoop ping (dedupFirst (priorityModels ++ DEFAULT_TEXT_MODELS.map (fun p => p.1))) none

/-! ### Batch shot inference (src/unnamed/part_000 lines 317-374) -/

/-- One inferred entry `{ prompt, activeNames }` as built by
`inferBatchPrompts`; field values are raw JSON since the code copies them
without validating their types. -/
structure InferredEntry where
  prompt : Json
  activeNames : List Json

/-- The per-item mapping of `inferBatchPrompts`:
`prompt: item.prompt || ""` and
`activeNames: Array.isArray(item.activeCharacterNames) ? ... : (Array.isArray(item.activeNames) ? ... : [])`. -/
def mkBatchEntry (item : Json) : InferredEntry where
  prompt :=
    match jsField item "prompt" with
    | some v => if jsTruthy v then v else .str ""
    | none => .str ""
  activeNames :=
    match jsField item "activeCharacterNames" with
    | some (.arr l) => l
    | _ =>
      match jsField item "activeNames" with
      | some (.arr l) => l
      | _ => []

/-- The placeholder entry `{ prompt: "", activeNames: [] }`. -/
def batchPlaceholder : InferredEntry := ⟨Json.str "", []⟩

/-- The response processing inside the `inferBatchPrompts` operation: parse
the fence-stripped text; on an array, map each item; on a parse failure
(caught by the inner `try`/`catch`) or a non-array value, one placeholder per
input segment. -/
def batchProcess (n : Nat) : Except String Json → List InferredEntry
  | .ok (.arr items) => items.map mkBatchEntry
  | _ => List.replicate n batchPlaceholder

/-- The operation `inferBatchPrompts` passes to the orchestrator, as a trace:
attempt `a` either rejects with the transport error of `api a`, or fulfils
with the processed entries of that attempt's parse outcome. -/
def inferBatchOp (n : Nat) (api : Nat → Outcome (Except String Json)) :
    Nat → Outcome (List InferredEntry) :=
  fun a =>
    match api a with
    | .err m => .err m
    | .ok parsed => .ok (batchProcess n parsed)

/-- Embedding of `inferBatchPrompts` from src/unnamed/part_000 lines 317-374, for `n`
input script segments (only the segment count affects the modelled
behaviour; the segments' text only feeds the prompt template).  The outer
`try`/`catch` converts any orchestrator failure into `n` placeholders. -/
def inferBatchPrompts (n : Nat) (apiKey : String)
    (api : Nat → Outcome (Except String Json)) : List InferredEntry :=
  match executeGeminiCall apiKey (inferBatchOp n api) "批量推理失败" with
  | .ok v => v
  | .error _ => List.replicate n batchPlaceholder

/-! ### Script breakdown (src/unnamed/part_000 lines 425-450) -/

/-- The operation `breakdownScript` passes to the orchestrator: it returns
`JSON.parse(text)` directly, so a parse failure is an exception escaping the
operation (and hence seen by the retry wrapper and the orchestrator). -/
def breakdownOp (api : Nat → Outcome (Except String Json)) : Nat → Outcome Json :=
  fun a =>
    match api a with
    | .err m => .err m
    | .ok (.error parseMsg) => .err parseMsg
    | .ok (.ok j) => .ok j

/-- What `breakdownScript` resolves with: the raw parsed JSON value on
success (the code performs no validation), or the deterministic line split on
failure. -/
inductive BreakdownResult where
  | parsed (j : Json) : BreakdownResult
  | fallback (lines : List String) : BreakdownResult

/-- The fallback `scriptText.split('\n').filter(l => l.trim().length > 0)`:
split on newline characters and discard whitespace-only lines, keeping the
original order. -/
def splitNonBlankLines (script : String) : List String :=
  ((splitOnChar '\n' script.toList).map String.mk).filter
    (fun l => !(jsTrimList l.toList).isEmpty)

/-- Embedding of `breakdownScript` from src/unnamed/part_000 lines 425-450: return the
parsed response as-is; on any error escaping the orchestrator, fall back to
the deterministic line split of the input script. -/
def breakdownScript (script apiKey : String)
    (api : Nat → Outcome (Except String Json)) : BreakdownResult :=
  match executeGeminiCall apiKey (breakdownOp api) "分镜拆解失败" with
  | .ok j => .parsed j
  | .error _ => .fallback (splitNonBlankLines script)

/-! ### Settings persistence (src/utils/storage.ts lines 12-21 and 74-90) -/

/-- JS property lookup on an object modelled as an association list. -/
def objGet : List (String × Json) → String → Option Json
  | [], _ => none
  | p :: t, k => if p.1 == k then some p.2 else objGet t k

/-- JS `delete obj[k]`: remove the key. -/
def objDelete (o : List (String × Json)) (k : String) : List (String × Json) :=
  o.filter (fun p => !(p.1 == k))

/-- JS assignment `obj[k] = v`: overwrite the existing key in place or append a new one. -/
def objSet : List (String × Json) → String → Json → List (String × Json)
  | [], k, v => [(k, v)]
  | p :: t, k, v => if p.1 == k then (k, v) :: t else p :: objSet t k v

/-- The object spread `{ ...a, ...b }`: `a`'s keys first with `b`'s values
where `b` overrides, then the keys only `b` has. -/
def spreadObj (a b : List (String × Json)) : List (String × Json) :=
  (a.map fun p =>
    match objGet b p.1 with
    | some v => (p.1, v)
    | none => p) ++
  b.filter (fun p => (objGet a p.1).isNone)

/-- Embedding of `DEFAULT_SETTINGS` from src/utils/storage.ts lines 12-21, as a JS
object. -/
def DEFAULT_SETTINGS : List (String × Json) :=
  [("apiKey", .str ""),
   ("baseUrl", .str ""),
   ("textModel", .str "gemini-2.5-pro"),
   ("imageModel", .str "gemini-2.5-flash-image"),
   ("customTextModels", .arr []),
   ("jianYingPath", .str "C:/Users/Admin/AppData/Local/JianYingPro/User Data/Projects/"),
   ("outputImgPath", .str "D:/AI_Output/"),
   ("themeColor", .str "#f97316")]

/-- Embedding of `getSettingsSync` from src/utils/storage.ts lines 74-90, with the stored
record abstracted to the parsed JSON object in local storage (`none` when the
key is absent): parse-or-default, `delete localSettings.apiKeys`, backfill a
falsy `customTextModels` with `[]`, and return
`{ ...DEFAULT_SETTINGS, ...localSettings }`. -/
def getSettingsSync (stored : Option (List (String × Json))) : List (String × Json) :=
  let localSettings := stored.getD DEFAULT_SETTINGS
  let ls1 := objDelete localSettings "apiKeys"
  let ls2 :=
    if jsTruthy ((objGet ls1 "customTextModels").getD .null) then ls1
    else objSet ls1 "customTextModels" (.arr [])
  spreadObj DEFAULT_SETTINGS ls2

/-! ### Concrete traces used by the witness theorems -/

/-- Trace failing twice with a transient `429` message, then succeeding. -/
def wRetryOkOp : Nat → Outcome Nat :=
  fun i => if i < 2 then .err "429" else .ok 7

/-- Trace failing five times with a transient `503` message, then
succeeding (the success is out of reach of the default budget). -/
def wRetryExhaustOp : Nat → Outcome Nat :=
  fun i => if i < 5 then .err "503 unavailable" else .ok 7

/-- Trace whose first invocation rejects with a non-transient `401`. -/
def wRetryBadOp : Nat → Outcome Nat :=
  fun _ => .err "401 unauthorized"

/-- Batch-inference trace whose responses always parse to a non-array. -/
def wBatchNonArray : Nat → Outcome (Except String Json) :=
  fun _ => .ok (.ok (.str "plain text"))

/-- Breakdown trace whose responses never parse as JSON. -/
def wBreakBadJson : Nat → Outcome (Except String Json) :=
  fun _ => .ok (.error "SyntaxError: Unexpected token")

/-- Breakdown trace whose first response parses to the number `5`. -/
def wBreakNum : Nat → Outcome (Except String Json) :=
  fun _ => .ok (.ok (.num 5))

/-- Breakdown trace whose transport always rejects non-transiently. -/
def wBreakOffline : Nat → Outcome (Except String Json) :=
  fun _ => .err "offline"

/-- Ping where exactly the model "B" answers. -/
def wPingOnlyB : String → Outcome Unit :=
  fun m => if m = "B" then .ok () else .err ("fail " ++ m)

/-- Ping where every model fails, with a per-model message. -/
def wPingAllFail : String → Outcome Unit :=
  fun m => .err ("down " ++ m)

/-- The per-model message of `wPingAllFail`. -/
def wPingAllFailMsg : String → String := fun m => "down " ++ m

/-- A stored settings record holding one schema key and one unknown key. -/
def wStored : List (String × Json) :=
  [("textModel", .str "my-model"), ("foo", .str "bar")]

/-! ## Shared helper lemmas -/

/-- Unfolding `retryLoop` with fuel left when the current invocation
fulfils. -/
theorem retryLoop_succ_ok {α : Type} (op : Nat → Outcome α)
    (maxRetries baseDelay f attempt inv wait : Nat) (lastErr : Option String) (v : α)
    (hop : op attempt = .ok v) :
    retryLoop op maxRetries baseDelay (f + 1) attempt inv wait lastErr =
      ⟨.ok v, inv + 1, wait⟩ := by
  simp [retryLoop, hop]

/-- Unfolding `retryLoop` when the current invocation rejects with a
transient error and attempts remain: wait and go round again. -/
theorem retryLoop_succ_retry {α : Type} (op : Nat → Outcome α)
    (maxRetries baseDelay f attempt inv wait : Nat) (lastErr : Option String) (m : String)
    (hop : op attempt = .err m) (ht : isTransientError m = true)
    (hlt : attempt < maxRetries) :
    retryLoop op maxRetries baseDelay (f + 1) attempt inv wait lastErr =
      retryLoop op maxRetries baseDelay f (attempt + 1) (inv + 1)
        (wait + baseDelay * 2 ^ attempt) (some m) := by
  simp [retryLoop, hop, ht, hlt]

/-- Unfolding `retryLoop` when the current invocation rejects and the error
is not retried (non-transient, or no attempts left): rethrow it. -/
theorem retryLoop_succ_stop {α : Type} (op : Nat → Outcome α)
    (maxRetries baseDelay f attempt inv wait : Nat) (lastErr : Option String) (m : String)
    (hop : op attempt = .err m)
    (hc : isTransientError m = false ∨ ¬ attempt < maxRetries) :
    retryLoop op maxRetries baseDelay (f + 1) attempt inv wait lastErr =
      ⟨.error m, inv + 1, wait⟩ := by
  rcases hc with hc | hc <;> simp [retryLoop, hop, hc]

/-- A fulfilled retry loop got its value from some invocation of the
operation. -/
theorem retryLoop_ok_src {α : Type} (op : Nat → Outcome α) (maxRetries baseDelay : Nat) :
    ∀ (fuel attempt inv wait : Nat) (lastErr : Option String) (v : α) (i w : Nat),
      retryLoop op maxRetries baseDelay fuel attempt inv wait lastErr = ⟨.ok v, i, w⟩ →
      ∃ a, op a = .ok v := by
  intro fuel
  induction fuel with
  | zero =>
    intro attempt inv wait lastErr v i w h
    simp [retryLoop] at h
  | succ f ih =>
    intro attempt inv wait lastErr v i w h
    cases hop : op attempt with
    | ok v' =>
      rw [retryLoop_succ_ok op maxRetries baseDelay f attempt inv wait lastErr v' hop] at h
      have hv : v' = v := by
        have := congrArg RetryResult.result h
        exact Except.ok.inj this
      exact ⟨attempt, by rw [hop, hv]⟩
    | err msg =>
      by_cases hc : isTransientError msg = true ∧ attempt < maxRetries
      · rw [retryLoop_succ_retry op maxRetries baseDelay f attempt inv wait lastErr msg
          hop hc.1 hc.2] at h
        exact ih _ _ _ _ v i w h
      · have hc' : isTransientError msg = false ∨ ¬ attempt < maxRetries := by
          by_cases h1 : isTransientError msg = true
          · exact Or.inr (fun h2 => hc ⟨h1, h2⟩)
          · exact Or.inl (Bool.not_eq_true _ ▸ Bool.eq_false_iff.mpr h1)
        rw [retryLoop_succ_stop op maxRetries baseDelay f attempt inv wait lastErr msg
          hop hc'] at h
        exact absurd (congrArg RetryResult.result h) (by simp)

/-- A fulfilled `retryLoop` result field came from some invocation. -/
theorem retryLoop_result_ok_src {α : Type} (op : Nat → Outcome α) (maxRetries baseDelay : Nat) :
    ∀ (fuel attempt inv wait : Nat) (lastErr : Option String) (v : α),
      (retryLoop op maxRetries baseDelay fuel attempt inv wait lastErr).result = .ok v →
      ∃ a, op a = .ok v := by
  intro fuel
  induction fuel with
  | zero =>
    intro attempt inv wait lastErr v h
    simp [retryLoop] at h
  | succ f ih =>
    intro attempt inv wait lastErr v h
    cases hop : op attempt with
    | ok v' =>
      rw [retryLoop_succ_ok op maxRetries baseDelay f attempt inv wait lastErr v' hop] at h
      exact ⟨attempt, by rw [hop, Except.ok.inj h]⟩
    | err msg =>
      by_cases hc : isTransientError msg = true ∧ attempt < maxRetries
      · rw [retryLoop_succ_retry op maxRetries baseDelay f attempt inv wait lastErr msg
          hop hc.1 hc.2] at h
        exact ih _ _ _ _ v h
      · have hc' : isTransientError msg = false ∨ ¬ attempt < maxRetries := by
          by_cases h1 : isTransientError msg = true
          · exact Or.inr (fun h2 => hc ⟨h1, h2⟩)
          · exact Or.inl (Bool.eq_false_iff.mpr h1)
        rw [retryLoop_succ_stop op maxRetries baseDelay f attempt inv wait lastErr msg
          hop hc'] at h
        exact absurd h (by simp)

/-- A fulfilled orchestrated call got its value from some invocation of the
wrapped operation. -/
theorem executeGeminiCall_ok_src {α : Type} (apiKey : String) (op : Nat → Outcome α)
    (contextName : String) (v : α)
    (h : executeGeminiCall apiKey op contextName = .ok v) : ∃ a, op a = .ok v := by
  unfold executeGeminiCall at h
  by_cases hk : cleanApiKeyTrim apiKey = ""
  · rw [if_pos hk] at h
    exact absurd h (by simp)
  · rw [if_neg hk] at h
    cases hr : (retryOperation op 3 2000).result with
    | ok w =>
      rw [hr] at h
      have hwv : w = v := Except.ok.inj h
      exact retryLoop_result_ok_src op 3 2000 (3 + 1) 0 0 0 none v (hwv ▸ hr)
    | error e =>
      rw [hr] at h
      exact absurd h (by simp)

/-- The retry loop on a trace that rejects transiently below `k` and fulfils
at `k ≤ maxRetries`: invocation and wait accounting from position `j` on. -/
theorem retryLoop_transient_ok_spec {α : Type} (op : Nat → Outcome α) (msgs : Nat → String)
    (v : α) (maxRetries baseDelay k : Nat)
    (hfail : ∀ i, i < k → op i = .err (msgs i) ∧ isTransientError (msgs i) = true)
    (hok : op k = .ok v) (hk : k ≤ maxRetries) :
    ∀ (d : Nat), ∀ (j inv wait : Nat) (lastErr : Option String), j + d = k →
      retryLoop op maxRetries baseDelay (maxRetries + 1 - j) j inv wait lastErr =
        ⟨.ok v, inv + d + 1, wait + baseDelay * (2 ^ k - 2 ^ j)⟩ := by
  intro d
  induction d with
  | zero =>
    intro j inv wait lastErr hj
    have hjk : j = k := by omega
    subst hjk
    have hf : maxRetries + 1 - j = (maxRetries - j) + 1 := by omega
    rw [hf, retryLoop_succ_ok op maxRetries baseDelay _ j inv wait lastErr v hok]
    simp
  | succ d ih =>
    intro j inv wait lastErr hj
    have hjk : j < k := by omega
    obtain ⟨hop, htr⟩ := hfail j hjk
    have hf : maxRetries + 1 - j = (maxRetries - j) + 1 := by omega
    rw [hf, retryLoop_succ_retry op maxRetries baseDelay _ j inv wait lastErr _ hop htr
      (by omega)]
    have hf2 : maxRetries - j = maxRetries + 1 - (j + 1) := by omega
    rw [hf2, ih (j + 1) (inv + 1) (wait + baseDelay * 2 ^ j) (some (msgs j)) (by omega)]
    have hpow : 2 ^ (j + 1) ≤ 2 ^ k := Nat.pow_le_pow_right (by norm_num) (by omega)
    have hpj : 2 ^ (j + 1) = 2 * 2 ^ j := by rw [pow_succ]; ring
    have h1 : inv + 1 + d + 1 = inv + (d + 1) + 1 := by omega
    have h2 : wait + baseDelay * 2 ^ j + baseDelay * (2 ^ k - 2 ^ (j + 1)) =
        wait + baseDelay * (2 ^ k - 2 ^ j) := by
      rw [add_assoc, ← Nat.mul_add]
      congr 2
      omega
    rw [h1, h2]

/-- The retry loop on a trace that rejects transiently at least through the
whole budget (`maxRetries < k`): it rethrows the last attempt's error. -/
theorem retryLoop_transient_exhaust_spec {α : Type} (op : Nat → Outcome α)
    (msgs : Nat → String) (maxRetries baseDelay k : Nat)
    (hfail : ∀ i, i < k → op i = .err (msgs i) ∧ isTransientError (msgs i) = true)
    (hk : maxRetries < k) :
    ∀ (d : Nat), ∀ (j inv wait : Nat) (lastErr : Option String), j + d = maxRetries →
      retryLoop op maxRetries baseDelay (maxRetries + 1 - j) j inv wait lastErr =
        ⟨.error (msgs maxRetries), inv + d + 1,
          wait + baseDelay * (2 ^ maxRetries - 2 ^ j)⟩ := by
  intro d
  induction d with
  | zero =>
    intro j inv wait lastErr hj
    have hjm : j = maxRetries := by omega
    obtain ⟨hop, htr⟩ := hfail j (by omega)
    have hf : maxRetries + 1 - j = 0 + 1 := by omega
    rw [hf, retryLoop_succ_stop op maxRetries baseDelay 0 j inv wait lastErr _ hop
      (Or.inr (by omega))]
    rw [hjm]
    simp
  | succ d ih =>
    intro j inv wait lastErr hj
    have hjm : j < maxRetries := by omega
    obtain ⟨hop, htr⟩ := hfail j (by omega)
    have hf : maxRetries + 1 - j = (maxRetries - j) + 1 := by omega
    rw [hf, retryLoop_succ_retry op maxRetries baseDelay _ j inv wait lastErr _ hop htr hjm]
    have hf2 : maxRetries - j = maxRetries + 1 - (j + 1) := by omega
    rw [hf2, ih (j + 1) (inv + 1) (wait + baseDelay * 2 ^ j) (some (msgs j)) (by omega)]
    have hpow : 2 ^ (j + 1) ≤ 2 ^ maxRetries := Nat.pow_le_pow_right (by norm_num) (by omega)
    have hpj : 2 ^ (j + 1) = 2 * 2 ^ j := by rw [pow_succ]; ring
    have h1 : inv + 1 + d + 1 = inv + (d + 1) + 1 := by omega
    have h2 : wait + baseDelay * 2 ^ j + baseDelay * (2 ^ maxRetries - 2 ^ (j + 1)) =
        wait + baseDelay * (2 ^ maxRetries - 2 ^ j) := by
      rw [add_assoc, ← Nat.mul_add]
      congr 2
      omega
    rw [h1, h2]

/-! ## Claim theorems -/

/-- C1: for an operation that rejects with a transient-marked error exactly
`k` times and then fulfils, if `k ≤ maxRetries` then `retryOperation`
returns the success value after exactly `k + 1` invocations with total
requested wait `baseDelay * (2 ^ k - 1)` (hence at least that); if
`k > maxRetries` it rethrows the last error (the one of attempt
`maxRetries`) after exactly `maxRetries + 1` invocations. -/
theorem retryOperation_transient_budget {α : Type} (op : Nat → Outcome α)
    (msgs : Nat → String) (v : α) (k maxRetries baseDelay : Nat)
    (hfail : ∀ i, i < k → op i = .err (msgs i) ∧ isTransientError (msgs i) = true)
    (hok : op k = .ok v) :
    (k ≤ maxRetries →
      retryOperation op maxRetries baseDelay = ⟨.ok v, k + 1, baseDelay * (2 ^ k - 1)⟩ ∧
      baseDelay * (2 ^ k - 1) ≤ (retryOperation op maxRetries baseDelay).totalWait) ∧
    (maxRetries < k →
      retryOperation op maxRetries baseDelay =
        ⟨.error (msgs maxRetries), maxRetries + 1, baseDelay * (2 ^ maxRetries - 1)⟩) := by
  constructor
  · intro hk
    have h := retryLoop_transient_ok_spec op msgs v maxRetries baseDelay k hfail hok hk
      k 0 0 0 none (by omega)
    simp only [Nat.zero_add, pow_zero] at h
    have he : retryOperation op maxRetries baseDelay =
        ⟨.ok v, k + 1, baseDelay * (2 ^ k - 1)⟩ := h
    exact ⟨he, by rw [he]⟩
  · intro hk
    have h := retryLoop_transient_exhaust_spec op msgs maxRetries baseDelay k hfail hk
      maxRetries 0 0 0 none (by omega)
    simp only [Nat.zero_add, pow_zero] at h
    exact h

/-- Witness for C1: `wRetryOkOp` rejects twice with `429` then fulfils with
`7`; under budget `maxRetries = 3`, `baseDelay = 2000` the wrapper returns
`7` after 3 invocations with wait `6000 = 2000 * (2^2 - 1)`.
`wRetryExhaustOp` rejects five times with `503`; the wrapper rethrows the
fourth attempt's error after 4 invocations. -/
theorem retryOperation_transient_budget_witness :
    (retryOperation wRetryOkOp 3 2000 = ⟨.ok 7, 3, 6000⟩ ∧
      2000 * (2 ^ 2 - 1) ≤ (retryOperation wRetryOkOp 3 2000).totalWait) ∧
    retryOperation wRetryExhaustOp 3 2000 = ⟨.error "503 unavailable", 4, 14000⟩ := by
  constructor
  · exact (retryOperation_transient_budget wRetryOkOp (fun _ => "429") 7 2 3 2000
      (fun i hi => ⟨by simp [wRetryOkOp, hi],
        (by decide : isTransientError "429" = true)⟩) rfl).1 (by omega)
  · exact (retryOperation_transient_budget wRetryExhaustOp (fun _ => "503 unavailable") 7 5 3
      2000 (fun i hi => ⟨by simp [wRetryExhaustOp, hi],
        (by decide : isTransientError "503 unavailable" = true)⟩) rfl).2 (by omega)

/-- C2: an operation whose first rejection carries a non-transient error (no
`429`, `503`, `Quota exceeded`, `NetworkError`, `Failed to fetch` in its
message) is rethrown immediately: exactly 1 invocation, zero wait. -/
theorem retryOperation_nontransient_immediate {α : Type} (op : Nat → Outcome α)
    (msg : String) (maxRetries baseDelay : Nat) (h0 : op 0 = .err msg)
    (ht : isTransientError msg = false) :
    retryOperation op maxRetries baseDelay = ⟨.error msg, 1, 0⟩ := by
  unfold retryOperation
  rw [retryLoop_succ_stop op maxRetries baseDelay maxRetries 0 0 0 none msg h0 (Or.inl ht)]

/-- Witness for C2 at the trace rejecting with a `401` message. -/
theorem retryOperation_nontransient_immediate_witness :
    retryOperation wRetryBadOp 3 2000 = ⟨.error "401 unauthorized", 1, 0⟩ :=
  retryOperation_nontransient_immediate wRetryBadOp "401 unauthorized" 3 2000 rfl (by decide)

/-- C3: whenever `inferBatchPrompts` suffers any failure — the orchestrated
call fails terminally (which includes a missing key), or no response ever
parses to a JSON array (parse failure or non-array value) — it returns,
without throwing, exactly `n` placeholder entries
`{ prompt: "", activeNames: [] }` for `n` input segments. -/
theorem inferBatchPrompts_failure_placeholders (n : Nat) (apiKey : String)
    (api : Nat → Outcome (Except String Json))
    (h : (∃ e, executeGeminiCall apiKey (inferBatchOp n api) "批量推理失败" = .error e) ∨
      (∀ a l, api a ≠ .ok (.ok (.arr l)))) :
    inferBatchPrompts n apiKey api = List.replicate n batchPlaceholder := by
  unfold inferBatchPrompts
  cases hcall : executeGeminiCall apiKey (inferBatchOp n api) "批量推理失败" with
  | error e => rfl
  | ok v =>
    rcases h with ⟨e, he⟩ | h2
    · rw [hcall] at he
      exact absurd he (by simp)
    · obtain ⟨a, ha⟩ := executeGeminiCall_ok_src apiKey (inferBatchOp n api) "批量推理失败" v
        hcall
      unfold inferBatchOp at ha
      cases hapi : api a with
      | err m =>
        rw [hapi] at ha
        exact absurd ha (by simp)
      | ok parsed =>
        rw [hapi] at ha
        have hv : batchProcess n parsed = v := Outcome.ok.inj ha
        show v = List.replicate n batchPlaceholder
        rw [← hv]
        cases parsed with
        | error pm => rfl
        | ok j =>
          cases j with
          | arr l => exact absurd hapi (h2 a l)
          | null => rfl
          | bool b => rfl
          | num m => rfl
          | str s => rfl
          | obj o => rfl

/-- Witness for C3: three segments and responses that always parse to a bare
string (not an array) yield exactly three placeholders. -/
theorem inferBatchPrompts_failure_placeholders_witness :
    inferBatchPrompts 3 "key" wBatchNonArray = List.replicate 3 batchPlaceholder :=
  inferBatchPrompts_failure_placeholders 3 "key" wBatchNonArray
    (Or.inr (fun a l h => by simp [wBatchNonArray] at h))

/-- C8: when no response of the orchestrated call ever parses as JSON (the
operation then throws, so this also covers every terminal orchestrator
failure), `breakdownScript` returns the input script split on newline
characters with whitespace-only lines discarded, in the original order. -/
theorem breakdownScript_fallback_lines (script apiKey : String)
    (api : Nat → Outcome (Except String Json))
    (h : ∀ a j, api a ≠ .ok (.ok j)) :
    breakdownScript script apiKey api =
      .fallback (((splitOnChar '\n' script.toList).map String.mk).filter
        (fun l => !(jsTrimList l.toList).isEmpty)) := by
  unfold breakdownScript
  cases hcall : executeGeminiCall apiKey (breakdownOp api) "分镜拆解失败" with
  | error e => rfl
  | ok v =>
    obtain ⟨a, ha⟩ := executeGeminiCall_ok_src apiKey (breakdownOp api) "分镜拆解失败" v hcall
    unfold breakdownOp at ha
    cases hapi : api a with
    | err m =>
      rw [hapi] at ha
      exact absurd ha (by simp)
    | ok parsed =>
      cases parsed with
      | error pm =>
        rw [hapi] at ha
        exact absurd ha (by simp)
      | ok j => exact absurd hapi (h a j)

/-- Witness for C8: a script of three lines (the middle one blank) and
responses that never parse yield the fallback `["line1", "line2"]`. -/
theorem breakdownScript_fallback_lines_witness :
    breakdownScript "line1\n   \nline2" "key" wBreakBadJson = .fallback ["line1", "line2"] := by
  have h := breakdownScript_fallback_lines "line1\n   \nline2" "key" wBreakBadJson
    (fun a j hj => by simp [wBreakBadJson] at hj)
  rw [h]
  rfl

/-- C10: a response whose fence-stripped text parses to any JSON value at
all — object, number, array of anything — is returned by `breakdownScript`
as-is, with no validation; and the line-splitting fallback occurs only when
the orchestrated call fails (i.e. every attempt threw: transport error or
`JSON.parse` exception). -/
theorem breakdownScript_parsed_passthrough (script apiKey : String)
    (api : Nat → Outcome (Except String Json)) (j : Json)
    (hkey : cleanApiKeyTrim apiKey ≠ "")
    (h0 : api 0 = .ok (.ok j)) :
    breakdownScript script apiKey api = .parsed j ∧
    ∀ (api2 : Nat → Outcome (Except String Json)) (ls : List String),
      breakdownScript script apiKey api2 = .fallback ls →
      ∃ e, executeGeminiCall apiKey (breakdownOp api2) "分镜拆解失败" = .error e := by
  constructor
  · have hop : breakdownOp api 0 = .ok j := by simp [breakdownOp, h0]
    unfold breakdownScript executeGeminiCall
    rw [if_neg hkey]
    unfold retryOperation
    rw [retryLoop_succ_ok (breakdownOp api) 3 2000 3 0 0 0 none j hop]
  · intro api2 ls hf
    unfold breakdownScript at hf
    cases hcall : executeGeminiCall apiKey (breakdownOp api2) "分镜拆解失败" with
    | ok v =>
      rw [hcall] at hf
      exact absurd hf (by simp)
    | error e => exact ⟨e, rfl⟩

/-- Witness for C10: a response parsing to the bare number `5` is returned
as `parsed 5`; a trace that always rejects makes the orchestrated call fail
terminally (matching the fallback characterization). -/
theorem breakdownScript_parsed_passthrough_witness :
    breakdownScript "s" "key" wBreakNum = .parsed (.num 5) ∧
    (∃ e, executeGeminiCall "key" (breakdownOp wBreakOffline) "分镜拆解失败" = .error e) := by
  have h := breakdownScript_parsed_passthrough "s" "key" wBreakNum (.num 5) (by decide) rfl
  exact ⟨h.1, h.2 wBreakOffline (splitNonBlankLines "s") rfl⟩

/-- C4 (code bug): `cleanApiKey` first deletes every whitespace character,
so the subsequent `/^Bearer\s+/i` replace can never match (its `\s+` needs a
surviving whitespace character); the spec example
`"  Bearer sk-abc123﻿ "` therefore maps to `"Bearersk-abc123"`, not
`"sk-abc123"`.  The part_000 revision (trim only) gives
`"Bearer sk-abc123"`.  The remaining spec clauses hold: empty and
whitespace-only input give the empty string. -/
theorem cleanApiKey_bearer_dead_code :
    cleanApiKey "  Bearer sk-abc123﻿ " = "Bearersk-abc123" ∧
    cleanApiKey "  Bearer sk-abc123﻿ " ≠ "sk-abc123" ∧
    cleanApiKeyTrim "  Bearer sk-abc123﻿ " = "Bearer sk-abc123" ∧
    cleanApiKey "" = "" ∧
    cleanApiKey "   " = "" := by
  refine ⟨by decide, by decide, by decide, rfl, by decide⟩

/-- C6 (counterexample): the classifier checks `400`/`401`/`403`/`404`
before `429`, so a message containing both `400` and `429` is mapped to the
bad-request display string, not the rate-limit one, although it contains
`429`. -/
theorem formatError_429_order_cex :
    strContains "400 429" "429" = true ∧
    formatError "400 429" "ctx" =
      "ctx: 请求无效 (400) - 代理不支持此模型名，或需要 role:user 字段 (已尝试修复)" ∧
    formatError "400 429" "ctx" ≠ "ctx: 请求过于频繁/额度耗尽 (429)" := by
  refine ⟨by decide, by decide, by decide⟩

/-- C6 (amended): a message containing `429` and none of the
earlier-checked patterns `400`, `401`, `403`, `404` maps to the
rate-limit/quota display string prefixed with the context label; the
classifier is a total function, and a message matching none of the fixed
patterns passes through unchanged, still prefixed. -/
theorem formatError_429_amended (msg ctx : String)
    (h400 : strContains msg "400" = false) (h401 : strContains msg "401" = false)
    (h403 : strContains msg "403" = false) (h404 : strContains msg "404" = false)
    (h429 : strContains msg "429" = true) :
    formatError msg ctx = ctx ++ ": " ++ "请求过于频繁/额度耗尽 (429)" ∧
    ∀ m, strContains m "400" = false → strContains m "401" = false →
      strContains m "403" = false → strContains m "404" = false →
      strContains m "429" = false → strContains m "500" = false →
      strContains m "503" = false → strContains m "Failed to fetch" = false →
      strContains m "NetworkError" = false →
      formatError m ctx = ctx ++ ": " ++ m := by
  constructor
  · simp [formatError, h400, h401, h403, h404, h429]
  · intro m a1 a2 a3 a4 a5 a6 a7 a8 a9
    simp [formatError, a1, a2, a3, a4, a5, a6, a7, a8, a9]

/-- Witness for C6 (amended) at the pure message `"429"` and an unmatched
message `"hello"`. -/
theorem formatError_429_amended_witness :
    formatError "429" "测试" = "测试" ++ ": " ++ "请求过于频繁/额度耗尽 (429)" ∧
    formatError "hello" "测试" = "测试" ++ ": " ++ "hello" := by
  have h := formatError_429_amended "429" "测试" (by decide) (by decide) (by decide)
    (by decide) (by decide)
  exact ⟨h.1, h.2 "hello" (by decide) (by decide) (by decide) (by decide) (by decide)
    (by decide) (by decide) (by decide) (by decide)⟩

/-- C7 (counterexample): with candidates `[A, B, C]` (then the built-in
list) where only `B`'s ping succeeds, the prober performs exactly one failed
attempt (`A`) and one successful attempt (`B`) — not the two failed attempts
the claim states — and never tries `C`. -/
theorem testApiConnection_single_failure_cex :
    testApiConnection "k" "" ["A", "B", "C"] wPingOnlyB = (.ok "B", ["A", "B"]) ∧
    (["A", "B"].filter (fun m => outcomeIsErr (wPingOnlyB m))).length = 1 ∧
    ¬ (["A", "B"].filter (fun m => outcomeIsErr (wPingOnlyB m))).length = 2 := by
  refine ⟨rfl, rfl, by decide⟩

/-- Unfolding one step of the prober loop on a nonempty model name whose
ping rejects. -/
theorem testLoop_cons_err (ping : String → Outcome Unit) (m : String) (rest : List String)
    (lastErr : Option String) (e : String) (hm : m ≠ "") (hpm : ping m = .err e) :
    testLoop ping (m :: rest) lastErr =
      ((testLoop ping rest (some e)).1, m :: (testLoop ping rest (some e)).2) := by
  simp [testLoop, hm, hpm]

/-- Unfolding one step of the prober loop on a nonempty model name whose
ping fulfils. -/
theorem testLoop_cons_ok (ping : String → Outcome Unit) (m : String) (rest : List String)
    (lastErr : Option String) (hm : m ≠ "") (hpm : ping m = .ok ()) :
    testLoop ping (m :: rest) lastErr = (.ok m, [m]) := by
  simp [testLoop, hm, hpm]

/-- The prober loop on a candidate list whose every entry is nonempty and
fails: it returns the classified error built from the last entry's failure
and pings every candidate in order. -/
theorem testLoop_all_fail (ping : String → Outcome Unit) (em : String → String) :
    ∀ (L : List String) (hne : L ≠ []) (lastErr : Option String),
      (∀ m ∈ L, m ≠ "" ∧ ping m = .err (em m)) →
      testLoop ping L lastErr =
        (.error (formatError (em (L.getLast hne)) "所有模型连接测试均失败"), L) := by
  intro L
  induction L with
  | nil => intro hne; exact absurd rfl hne
  | cons m rest ih =>
    intro hne lastErr hall
    obtain ⟨hm, hpm⟩ := hall m (List.mem_cons_self m rest)
    rw [testLoop_cons_err ping m rest lastErr (em m) hm hpm]
    cases rest with
    | nil => simp [testLoop, List.getLast]
    | cons x xs =>
      have hne' : x :: xs ≠ [] := List.cons_ne_nil x xs
      have ih' := ih hne' (some (em m)) (fun m' hm' => hall m' (List.mem_cons_of_mem m hm'))
      rw [ih']
      simp [List.getLast_cons]

/-- C7 (amended): the prober tries
`[...new Set(priorityModels ++ builtin)]` (first-seen order) in order.  If
the first candidate `A` fails and the second `B` succeeds, it returns `B`
after exactly one failed and one successful attempt, never reaching the
remaining candidates; if every candidate fails, it raises the classified
error derived from the last candidate's failure, having tried them all. -/
theorem testApiConnection_order_amended (apiKey baseUrl : String)
    (priorityModels : List String) (ping : String → Outcome Unit)
    (hkey : cleanApiKeyTrim apiKey ≠ "") :
    (∀ (A B : String) (rest : List String) (eA : String),
      dedupFirst (priorityModels ++ DEFAULT_TEXT_MODELS.map (fun p => p.1)) = A :: B :: rest →
      A ≠ "" → B ≠ "" → ping A = .err eA → ping B = .ok () →
      testApiConnection apiKey baseUrl priorityModels ping = (.ok B, [A, B])) ∧
    (∀ (L : List String) (em : String → String) (hne : L ≠ []),
      dedupFirst (priorityModels ++ DEFAULT_TEXT_MODELS.map (fun p => p.1)) = L →
      (∀ m ∈ L, m ≠ "" ∧ ping m = .err (em m)) →
      testApiConnection apiKey baseUrl priorityModels ping =
        (.error (formatError (em (L.getLast hne)) "所有模型连接测试均失败"), L)) := by
  constructor
  · intro A B rest eA hmodels hA hB hpA hpB
    unfold testApiConnection
    rw [if_neg hkey, hmodels, testLoop_cons_err ping A (B :: rest) none eA hA hpA,
      testLoop_cons_ok ping B rest (some eA) hB hpB]
  · intro L em hne hmodels hall
    unfold testApiConnection
    rw [if_neg hkey, hmodels]
    exact testLoop_all_fail ping em L hne none hall

/-- Witness for C7 (amended): with priorities `["A", "B"]` and only `B`
answering, the prober returns `B` after pinging `A` then `B`; with no
priorities and every ping failing, it fails with the classified error of the
last built-in model. -/
theorem testApiConnection_order_amended_witness :
    testApiConnection "k" "" ["A", "B"] wPingOnlyB = (.ok "B", ["A", "B"]) ∧
    testApiConnection "k" "" [] wPingAllFail =
      (.error (formatError (wPingAllFailMsg "gemini-2.5-flash") "所有模型连接测试均失败"),
        ["gemini-2.5-pro", "gemini-3-pro-preview", "gemini-1.5-pro", "gemini-2.5-flash"]) := by
  constructor
  · exact (testApiConnection_order_amended "k" "" ["A", "B"] wPingOnlyB (by decide)).1
      "A" "B" ["gemini-2.5-pro", "gemini-3-pro-preview", "gemini-1.5-pro", "gemini-2.5-flash"]
      "fail A" rfl (by decide) (by decide) rfl rfl
  · exact (testApiConnection_order_amended "k" "" [] wPingAllFail (by decide)).2
      ["gemini-2.5-pro", "gemini-3-pro-preview", "gemini-1.5-pro", "gemini-2.5-flash"]
      wPingAllFailMsg (by decide) rfl
      (fun m hm => ⟨by fin_cases hm <;> decide, rfl⟩)

/-- Lookup after a JS `delete`: the deleted key reads as undefined, the
others unchanged. -/
theorem objGet_objDelete (o : List (String × Json)) (k0 k : String) :
    objGet (objDelete o k0) k = if k = k0 then none else objGet o k := by
  induction o with
  | nil => simp [objDelete, objGet]
  | cons p t ih =>
    simp only [objDelete, List.filter_cons] at ih ⊢
    by_cases hp : p.1 = k0
    · have hcond : (!(p.1 == k0)) = false := by simp [hp]
      rw [hcond, if_neg (by simp), ih]
      by_cases hk : k = k0
      · simp [hk]
      · have hpk : ¬ p.1 = k := fun hh => hk (hh.symm.trans hp)
        simp [hk, objGet, hpk]
    · have hcond : (!(p.1 == k0)) = true := by simp [hp]
      rw [hcond, if_pos rfl]
      by_cases hpk : p.1 = k
      · have hk : ¬ k = k0 := fun hh => hp (hpk.trans hh)
        simp [objGet, hpk, hk]
      · simp [objGet, hpk, ih]

/-- Lookup after a JS property assignment: the assigned key reads the new
value, the others unchanged. -/
theorem objGet_objSet (o : List (String × Json)) (k0 : String) (v : Json) (k : String) :
    objGet (objSet o k0 v) k = if k = k0 then some v else objGet o k := by
  induction o with
  | nil =>
    by_cases hk : k = k0
    · simp [objSet, objGet, hk]
    · have hk0 : ¬ k0 = k := fun hh => hk hh.symm
      simp [objSet, objGet, hk, hk0]
  | cons p t ih =>
    by_cases hp : p.1 = k0
    · rw [objSet, if_pos (by simp [hp])]
      by_cases hk : k = k0
      · simp [objGet, hk]
      · have hk0 : ¬ k0 = k := fun hh => hk hh.symm
        have hpk : ¬ p.1 = k := fun hh => hk0 (hp.symm.trans hh)
        simp [objGet, hk, hk0, hpk]
    · rw [objSet, if_neg (by simp [hp])]
      by_cases hpk : p.1 = k
      · have hk : ¬ k = k0 := fun hh => hp (hpk.trans hh)
        simp [objGet, hpk, hk]
      · simp [objGet, hpk, ih]

/-- Lookup distributes over append as a left-biased `Option.or`. -/
theorem objGet_append (a b : List (String × Json)) (k : String) :
    objGet (a ++ b) k = (objGet a k).or (objGet b k) := by
  induction a with
  | nil => simp [objGet, Option.or]
  | cons p t ih =>
    by_cases hp : p.1 = k <;> simp [objGet, hp, ih, Option.or]

/-- Lookup in the override part of the spread: the keys of `a`, each reading
`b`'s value where `b` has the key. -/
theorem objGet_spreadMap (a b : List (String × Json)) (k : String) :
    objGet (a.map fun p =>
        match objGet b p.1 with
        | some v => (p.1, v)
        | none => p) k =
      (objGet a k).map (fun v => (objGet b k).getD v) := by
  induction a with
  | nil => simp [objGet]
  | cons p t ih =>
    cases hb : objGet b p.1 with
    | none =>
      by_cases hp : p.1 = k
      · simp [objGet, hb, hp, hp ▸ hb]
      · simp [objGet, hb, hp, ih]
    | some w =>
      by_cases hp : p.1 = k
      · simp [objGet, hb, hp, hp ▸ hb]
      · simp [objGet, hb, hp, ih]

/-- Lookup in the new-keys part of the spread: `b` filtered to the keys `a`
does not have. -/
theorem objGet_spreadFilter (a b : List (String × Json)) (k : String) :
    objGet (b.filter fun p => (objGet a p.1).isNone) k =
      if (objGet a k).isNone = true then objGet b k else none := by
  induction b with
  | nil => simp [objGet]
  | cons q t ih =>
    by_cases hq : q.1 = k
    · cases ha : (objGet a q.1).isNone <;>
        simp [List.filter_cons, objGet, hq, hq ▸ ha, ih]
    · cases hfq : (objGet a q.1).isNone <;>
        simp [List.filter_cons, objGet, hq, hfq, ih]

/-- Lookup through the JS spread `{ ...a, ...b }`: `b` wins, else `a`. -/
theorem objGet_spreadObj (a b : List (String × Json)) (k : String) :
    objGet (spreadObj a b) k = (objGet b k).or (objGet a k) := by
  unfold spreadObj
  rw [objGet_append, objGet_spreadMap, objGet_spreadFilter]
  cases ha : objGet a k <;> cases hb : objGet b k <;> simp [Option.or]

/-- C9 (counterexample): a stored record with the unknown key `foo` is
loaded with `foo` still present — the spread `{ ...DEFAULT_SETTINGS,
...localSettings }` keeps unknown keys; only `apiKeys` is deleted. -/
theorem getSettingsSync_unknown_key_kept :
    objGet (getSettingsSync (some wStored)) "foo" = some (.str "bar") ∧
    ¬ objGet (getSettingsSync (some wStored)) "foo" = none := by
  have h1 : objGet (getSettingsSync (some wStored)) "foo" = some (.str "bar") := rfl
  exact ⟨h1, by rw [h1]; simp⟩

/-- C9 (amended): loading settings backfills every key missing from storage
with its value from `DEFAULT_SETTINGS`, drops the single known legacy key
`apiKeys`, and retains every other key not in the settings schema with its
stored value. -/
theorem getSettingsSync_merge_amended (stored : List (String × Json)) :
    (∀ k v, objGet stored k = none → objGet DEFAULT_SETTINGS k = some v →
      objGet (getSettingsSync (some stored)) k = some v) ∧
    objGet (getSettingsSync (some stored)) "apiKeys" = none ∧
    (∀ k, objGet DEFAULT_SETTINGS k = none → k ≠ "apiKeys" →
      objGet (getSettingsSync (some stored)) k = objGet stored k) := by
  by_cases hctm :
      jsTruthy ((objGet (objDelete stored "apiKeys") "customTextModels").getD .null) = true
  · have hform : getSettingsSync (some stored) =
        spreadObj DEFAULT_SETTINGS (objDelete stored "apiKeys") := by
      unfold getSettingsSync
      simp [hctm]
    refine ⟨?_, ?_, ?_⟩
    · intro k v hs hd
      rw [hform, objGet_spreadObj, objGet_objDelete]
      by_cases hk : k = "apiKeys"
      · rw [hk, show objGet DEFAULT_SETTINGS "apiKeys" = none from rfl] at hd
        exact Option.noConfusion hd
      · rw [if_neg hk, hs, hd]
        rfl
    · rw [hform, objGet_spreadObj, objGet_objDelete]
      rw [if_pos rfl, show objGet DEFAULT_SETTINGS "apiKeys" = none from rfl]
      rfl
    · intro k hd hka
      rw [hform, objGet_spreadObj, objGet_objDelete, if_neg hka, hd]
      cases objGet stored k <;> rfl
  · have hform : getSettingsSync (some stored) =
        spreadObj DEFAULT_SETTINGS
          (objSet (objDelete stored "apiKeys") "customTextModels" (.arr [])) := by
      unfold getSettingsSync
      simp [hctm]
    refine ⟨?_, ?_, ?_⟩
    · intro k v hs hd
      rw [hform, objGet_spreadObj, objGet_objSet, objGet_objDelete]
      by_cases hk : k = "customTextModels"
      · rw [if_pos hk]
        rw [hk, show objGet DEFAULT_SETTINGS "customTextModels" = some (Json.arr []) from rfl]
          at hd
        rw [(Option.some.inj hd).symm]
        rfl
      · rw [if_neg hk]
        by_cases hka : k = "apiKeys"
        · rw [hka, show objGet DEFAULT_SETTINGS "apiKeys" = none from rfl] at hd
          exact Option.noConfusion hd
        · rw [if_neg hka, hs, hd]
          rfl
    · rw [hform, objGet_spreadObj, objGet_objSet, objGet_objDelete]
      rw [if_neg (by decide : ¬ ("apiKeys" : String) = "customTextModels"), if_pos rfl,
        show objGet DEFAULT_SETTINGS "apiKeys" = none from rfl]
      rfl
    · intro k hd hka
      have hkc : k ≠ "customTextModels" := by
        intro h
        rw [h, show objGet DEFAULT_SETTINGS "customTextModels" = some (Json.arr []) from rfl]
          at hd
        exact Option.noConfusion hd
      rw [hform, objGet_spreadObj, objGet_objSet, objGet_objDelete, if_neg hkc, if_neg hka,
        hd]
      cases objGet stored k <;> rfl

/-- Witness for C9 (amended) at `wStored`: the missing `baseUrl` is
backfilled from the defaults, `apiKeys` is absent, the unknown `foo` is
retained. -/
theorem getSettingsSync_merge_amended_witness :
    objGet (getSettingsSync (some wStored)) "baseUrl" = some (.str "") ∧
    objGet (getSettingsSync (some wStored)) "apiKeys" = none ∧
    objGet (getSettingsSync (some wStored)) "foo" = objGet wStored "foo" := by
  have h := getSettingsSync_merge_amended wStored
  exact ⟨h.1 "baseUrl" (.str "") rfl rfl, h.2.1, h.2.2 "foo" rfl (by decide)⟩

/-- A `dropWhile` that keeps its length is the identity. -/
theorem dropWhile_len_eq {α : Type} (p : α → Bool) (l : List α)
    (h : (List.dropWhile p l).length = l.length) : List.dropWhile p l = l :=
  (List.dropWhile_suffix p).eq_of_length h

/-- A list fixed by the JS trim has whitespace-free ends: both one-sided
drops are the identity. -/
theorem jsTrimList_parts (l : List Char) (h : jsTrimList l = l) :
    List.dropWhile jsWhitespace l = l ∧
    List.dropWhile jsWhitespace l.reverse = l.reverse := by
  have hlen : l.length = (jsTrimList l).length := by rw [h]
  unfold jsTrimList at hlen
  simp only [List.length_reverse] at hlen
  have h1 : (List.dropWhile jsWhitespace l).length ≤ l.length :=
    (List.dropWhile_suffix _).length_le
  have h2 : ((List.dropWhile jsWhitespace l).reverse.dropWhile jsWhitespace).length ≤
      ((List.dropWhile jsWhitespace l).reverse).length :=
    (List.dropWhile_suffix _).length_le
  simp only [List.length_reverse] at h2
  have hfront : List.dropWhile jsWhitespace l = l := dropWhile_len_eq _ _ (by omega)
  refine ⟨hfront, ?_⟩
  unfold jsTrimList at h
  rw [hfront] at h
  have := congrArg List.reverse h
  rw [List.reverse_reverse] at this
  exact this

/-- The head of a `dropWhile`-fixed nonempty list fails the predicate. -/
theorem dropWhile_self_head_false {α : Type} (p : α → Bool) (c : α) (t : List α)
    (h : List.dropWhile p (c :: t) = c :: t) : p c = false := by
  by_contra hc
  have hc' : p c = true := by revert hc; cases p c <;> simp
  rw [List.dropWhile_cons, if_pos hc'] at h
  have hlen := congrArg List.length h
  have hle : (List.dropWhile p t).length ≤ t.length := (List.dropWhile_suffix p).length_le
  simp at hlen
  omega

/-- Extending a front-trim-fixed nonempty list on the right does not create
leading whitespace. -/
theorem dropWhile_append_of_fix (l s : List Char)
    (hl : List.dropWhile jsWhitespace l = l) (hne : l ≠ []) :
    List.dropWhile jsWhitespace (l ++ s) = l ++ s := by
  cases l with
  | nil => exact absurd rfl hne
  | cons c t =>
    have hc := dropWhile_self_head_false jsWhitespace c t hl
    simp [List.cons_append, List.dropWhile_cons, hc]

/-- Appending a block whose reversed form starts with a non-whitespace
character (or is empty) to a trim-fixed nonempty list keeps it trim-fixed. -/
theorem jsTrimList_append_fix (l s : List Char)
    (hl : jsTrimList l = l) (hne : l ≠ [])
    (hs : s = [] ∨ ∃ c t, s.reverse = c :: t ∧ jsWhitespace c = false) :
    jsTrimList (l ++ s) = l ++ s := by
  obtain ⟨hf, hb⟩ := jsTrimList_parts l hl
  unfold jsTrimList
  rw [dropWhile_append_of_fix l s hf hne]
  rcases hs with rfl | ⟨c, t, hrev, hc⟩
  · simp only [List.append_nil]
    rw [hb, List.reverse_reverse]
  · rw [List.reverse_append, hrev, List.cons_append, List.dropWhile_cons,
      if_neg (by simp [hc]), ← List.cons_append, ← hrev, ← List.reverse_append,
      List.reverse_reverse]

/-- Stripping trailing slashes removes an appended slash block. -/
theorem stripTrailingSlashes_append_replicate (l : List Char) (k : Nat) :
    stripTrailingSlashes (l ++ List.replicate k '/') = stripTrailingSlashes l := by
  unfold stripTrailingSlashes
  rw [List.reverse_append, List.reverse_replicate, List.dropWhile_append]
  have hall : List.dropWhile (fun c => c == '/') (List.replicate k '/') = [] := by
    induction k with
    | zero => rfl
    | succ n ih => simp [List.replicate_succ, List.dropWhile_cons, ih]
  rw [hall]
  simp

/-- A list not ending in `'/'` is fixed by the trailing-slash strip. -/
theorem stripTrailingSlashes_of_fix (l : List Char) (h : l.getLast? ≠ some '/') :
    stripTrailingSlashes l = l := by
  unfold stripTrailingSlashes
  cases hr : l.reverse with
  | nil =>
    have hl : l = [] := by simpa using congrArg List.reverse hr
    simp [hl]
  | cons c t =>
    have hc : l.getLast? = some c := by rw [← List.head?_reverse, hr]; rfl
    have hcn : ¬ ((c == '/') = true) := by
      have : c ≠ '/' := fun hh => h (hc.trans (by rw [hh]))
      simp [this]
    rw [List.dropWhile_cons, if_neg hcn, ← hr, List.reverse_reverse]

/-- The last element of `l ++ s` where `s` reverses to a cons. -/
theorem getLast?_append_right (l s : List Char) (c : Char) (t : List Char)
    (hrev : s.reverse = c :: t) : (l ++ s).getLast? = some c := by
  rw [← List.head?_reverse, List.reverse_append, hrev]
  rfl

/-- Fact: `endsWith` holds on an appended copy of the pattern. -/
theorem isSuffixOf_append_self (l pat : List Char) :
    pat.isSuffixOf (l ++ pat) = true := by
  simp [List.isSuffixOf_iff_suffix, List.suffix_append]

/-- Fact: `"/v1beta"` is never a suffix of a list ending in `"/v1"` (their last
three characters differ). -/
theorem v1beta_not_suffix_of_v1 (l : List Char) :
    ("/v1beta".toList).isSuffixOf (l ++ "/v1".toList) = false := by
  rw [Bool.eq_false_iff]
  intro h
  rw [List.isSuffixOf_iff_suffix] at h
  obtain ⟨t, ht⟩ := h
  have h3 := congrArg (fun x => List.take 3 x.reverse) ht
  simp only [List.reverse_append] at h3
  rw [show ("/v1beta".toList).reverse = ['a', 't', 'e', 'b', '1', 'v', '/'] from by decide,
    show ("/v1".toList).reverse = ['1', 'v', '/'] from by decide] at h3
  simp at h3

/-- Taking everything but an appended pattern recovers the base. -/
theorem take_append_sub (b A : List Char) :
    (b ++ A).take ((b ++ A).length - A.length) = b := by
  rw [List.length_append]
  have h : b.length + A.length - A.length = b.length := by omega
  rw [h, List.take_left]

/-- The reverse of `A ++ k slashes` starts with a non-whitespace character
whenever the reverse of `A` does. -/
theorem revshape_suffix_slashes (A : List Char) (k : Nat) (c0 : Char) (t0 : List Char)
    (hA : A.reverse = c0 :: t0) (hc0 : jsWhitespace c0 = false) :
    ∃ c t, (A ++ List.replicate k '/').reverse = c :: t ∧ jsWhitespace c = false := by
  cases k with
  | zero => exact ⟨c0, t0, by simpa using hA, hc0⟩
  | succ j =>
    refine ⟨'/', List.replicate j '/' ++ A.reverse, ?_, by decide⟩
    rw [List.reverse_append, List.reverse_replicate, List.replicate_succ]
    simp

/-- A slash block is empty or reverses to a cons of the non-whitespace
`'/'`. -/
theorem revshape_slashes (k : Nat) :
    List.replicate k '/' = ([] : List Char) ∨
    ∃ c t, (List.replicate k '/').reverse = c :: t ∧ jsWhitespace c = false := by
  cases k with
  | zero => exact Or.inl rfl
  | succ j =>
    refine Or.inr ⟨'/', List.replicate j '/', ?_, by decide⟩
    rw [List.reverse_replicate, List.replicate_succ]

/-- Computing `(a ++ b ++ mk l).toList` at the list level. -/
theorem toList_append3 (a b2 : String) (l : List Char) :
    (a ++ b2 ++ String.mk l).toList = (a.toList ++ b2.toList) ++ l := by
  show (a ++ b2 ++ String.mk l).data = (a.data ++ b2.data) ++ l
  rw [String.data_append, String.data_append]

/-- Computing `(a ++ mk l).toList` at the list level. -/
theorem toList_append2 (a : String) (l : List Char) :
    (a ++ String.mk l).toList = a.toList ++ l := by
  show (a ++ String.mk l).data = a.data ++ l
  rw [String.data_append]

/-- C5 (counterexample): the endpoint normalizer is not idempotent on the
whole claimed class: `"/v1beta"` (0 trailing slashes) normalizes to the
empty-string override, which a second normalization turns into
"no override". -/
theorem cleanBaseUrl_not_idempotent :
    cleanBaseUrl (some "/v1beta") = some "" ∧
    cleanBaseUrl (cleanBaseUrl (some "/v1beta")) = none ∧
    cleanBaseUrl (cleanBaseUrl (some "/v1beta")) ≠ cleanBaseUrl (some "/v1beta") := by
  refine ⟨by decide, by decide, by decide⟩

/-- C5 (amended): on endpoints `b ++ suffix ++ (k ≤ 3 slashes)` with
`suffix ∈ {"/v1beta", "/v1", ""}`, whose base `b` is nonempty, trim-fixed,
does not itself end in `'/'`, `"/v1beta"` or `"/v1"`, and is not the
official endpoint, normalization strips exactly the one version suffix
(yielding `b` in every case) and is idempotent. -/
theorem cleanBaseUrl_idempotent_amended (b : String) (k : Nat)
    (hk : k ≤ 3)
    (htrim : jsTrimList b.toList = b.toList)
    (hne : b ≠ "")
    (hslash : b.toList.getLast? ≠ some '/')
    (h7 : ("/v1beta".toList).isSuffixOf b.toList = false)
    (h3 : ("/v1".toList).isSuffixOf b.toList = false)
    (hoff : b ≠ officialBaseUrl) :
    cleanBaseUrl (some (b ++ "/v1beta" ++ String.mk (List.replicate k '/'))) = some b ∧
    cleanBaseUrl (some (b ++ "/v1" ++ String.mk (List.replicate k '/'))) = some b ∧
    cleanBaseUrl (some (b ++ String.mk (List.replicate k '/'))) = some b ∧
    cleanBaseUrl (some b) = some b ∧
    cleanBaseUrl (cleanBaseUrl (some (b ++ "/v1beta" ++ String.mk (List.replicate k '/')))) =
      cleanBaseUrl (some (b ++ "/v1beta" ++ String.mk (List.replicate k '/'))) ∧
    cleanBaseUrl (cleanBaseUrl (some (b ++ "/v1" ++ String.mk (List.replicate k '/')))) =
      cleanBaseUrl (some (b ++ "/v1" ++ String.mk (List.replicate k '/'))) ∧
    cleanBaseUrl (cleanBaseUrl (some (b ++ String.mk (List.replicate k '/')))) =
      cleanBaseUrl (some (b ++ String.mk (List.replicate k '/'))) := by
  have hbne : b.toList ≠ [] := by
    intro h
    exact hne (String.ext (h.trans rfl))
  have hofflist : ¬ (b.toList = officialBaseUrl.toList) := fun h => hoff (String.ext h)
  have hstripb : stripTrailingSlashes b.toList = b.toList :=
    stripTrailingSlashes_of_fix _ hslash
  have hmkb : String.mk b.toList = b := rfl
  -- the official check on the recovered base
  have hoffb : officialCheck b.toList = some b := by
    unfold officialCheck
    rw [if_neg hofflist, hmkb]
  -- case 4: the base alone
  have e4 : cleanBaseUrl (some b) = some b := by
    show (if jsTrimList b.toList = [] then none
      else officialCheck (stripTrailingSlashes (stripVersionSuffix
        (stripTrailingSlashes (jsTrimList b.toList))))) = some b
    rw [if_neg (by rw [htrim]; exact hbne), htrim, hstripb]
    unfold stripVersionSuffix
    rw [if_neg (by rw [h7]; exact Bool.false_ne_true),
      if_neg (by rw [h3]; exact Bool.false_ne_true), hstripb, hoffb]
  -- case 1: base ++ "/v1beta" ++ slashes
  have hA7 : ("/v1beta".toList).reverse = 'a' :: ['t', 'e', 'b', '1', 'v', '/'] := by decide
  have e1 : cleanBaseUrl (some (b ++ "/v1beta" ++ String.mk (List.replicate k '/'))) =
      some b := by
    have htr : jsTrimList ((b.toList ++ "/v1beta".toList) ++ List.replicate k '/') =
        (b.toList ++ "/v1beta".toList) ++ List.replicate k '/' := by
      rw [List.append_assoc]
      exact jsTrimList_append_fix b.toList _ htrim hbne
        (Or.inr (revshape_suffix_slashes "/v1beta".toList k 'a' _ hA7 (by decide)))
    have hstrip1 : stripTrailingSlashes
        ((b.toList ++ "/v1beta".toList) ++ List.replicate k '/') =
        b.toList ++ "/v1beta".toList := by
      rw [stripTrailingSlashes_append_replicate]
      exact stripTrailingSlashes_of_fix _
        (by rw [getLast?_append_right b.toList _ 'a' _ hA7]; decide)
    have hne2 : (b.toList ++ "/v1beta".toList) ++ List.replicate k '/' ≠ [] := by
      simp [hbne]
    have htake : (b.toList ++ "/v1beta".toList).take
        ((b.toList ++ "/v1beta".toList).length - 7) = b.toList := by
      have h7len : ("/v1beta".toList).length = 7 := by decide
      rw [← h7len]
      exact take_append_sub b.toList "/v1beta".toList
    show (if jsTrimList (b ++ "/v1beta" ++ String.mk (List.replicate k '/')).toList = []
      then none
      else officialCheck (stripTrailingSlashes (stripVersionSuffix (stripTrailingSlashes
        (jsTrimList (b ++ "/v1beta" ++ String.mk (List.replicate k '/')).toList))))) = some b
    rw [toList_append3, htr, if_neg hne2, hstrip1]
    unfold stripVersionSuffix
    rw [if_pos (isSuffixOf_append_self b.toList _), htake, hstripb, hoffb]
  -- case 2: base ++ "/v1" ++ slashes
  have hA3 : ("/v1".toList).reverse = '1' :: ['v', '/'] := by decide
  have e2 : cleanBaseUrl (some (b ++ "/v1" ++ String.mk (List.replicate k '/'))) =
      some b := by
    have htr : jsTrimList ((b.toList ++ "/v1".toList) ++ List.replicate k '/') =
        (b.toList ++ "/v1".toList) ++ List.replicate k '/' := by
      rw [List.append_assoc]
      exact jsTrimList_append_fix b.toList _ htrim hbne
        (Or.inr (revshape_suffix_slashes "/v1".toList k '1' _ hA3 (by decide)))
    have hstrip1 : stripTrailingSlashes
        ((b.toList ++ "/v1".toList) ++ List.replicate k '/') =
        b.toList ++ "/v1".toList := by
      rw [stripTrailingSlashes_append_replicate]
      exact stripTrailingSlashes_of_fix _
        (by rw [getLast?_append_right b.toList _ '1' _ hA3]; decide)
    have hne2 : (b.toList ++ "/v1".toList) ++ List.replicate k '/' ≠ [] := by
      simp [hbne]
    have htake : (b.toList ++ "/v1".toList).take
        ((b.toList ++ "/v1".toList).length - 3) = b.toList := by
      have h3len : ("/v1".toList).length = 3 := by decide
      rw [← h3len]
      exact take_append_sub b.toList "/v1".toList
    show (if jsTrimList (b ++ "/v1" ++ String.mk (List.replicate k '/')).toList = []
      then none
      else officialCheck (stripTrailingSlashes (stripVersionSuffix (stripTrailingSlashes
        (jsTrimList (b ++ "/v1" ++ String.mk (List.replicate k '/')).toList))))) = some b
    rw [toList_append3, htr, if_neg hne2, hstrip1]
    unfold stripVersionSuffix
    rw [if_neg (by rw [v1beta_not_suffix_of_v1 b.toList]; exact Bool.false_ne_true),
      if_pos (isSuffixOf_append_self b.toList _), htake, hstripb, hoffb]
  -- case 3: base ++ slashes only
  have e3 : cleanBaseUrl (some (b ++ String.mk (List.replicate k '/'))) = some b := by
    have htr : jsTrimList (b.toList ++ List.replicate k '/') =
        b.toList ++ List.replicate k '/' :=
      jsTrimList_append_fix b.toList _ htrim hbne (revshape_slashes k)
    have hstrip1 : stripTrailingSlashes (b.toList ++ List.replicate k '/') = b.toList := by
      rw [stripTrailingSlashes_append_replicate]
      exact hstripb
    have hne2 : b.toList ++ List.replicate k '/' ≠ [] := by
      intro h
      rw [List.append_eq_nil] at h
      exact hbne h.1
    show (if jsTrimList (b ++ String.mk (List.replicate k '/')).toList = [] then none
      else officialCheck (stripTrailingSlashes (stripVersionSuffix (stripTrailingSlashes
        (jsTrimList (b ++ String.mk (List.replicate k '/')).toList))))) = some b
    rw [toList_append2, htr, if_neg hne2, hstrip1]
    unfold stripVersionSuffix
    rw [if_neg (by rw [h7]; exact Bool.false_ne_true),
      if_neg (by rw [h3]; exact Bool.false_ne_true), hstripb, hoffb]
  refine ⟨e1, e2, e3, e4, ?_, ?_, ?_⟩
  · rw [e1, e4]
  · rw [e2, e4]
  · rw [e3, e4]

/-- Witness for C5 (amended) at `b = "https://api.example.com"` and two
trailing slashes. -/
theorem cleanBaseUrl_idempotent_amended_witness :
    cleanBaseUrl (some ("https://api.example.com" ++ "/v1beta" ++
      String.mk (List.replicate 2 '/'))) = some "https://api.example.com" ∧
    cleanBaseUrl (some ("https://api.example.com" ++ "/v1" ++
      String.mk (List.replicate 2 '/'))) = some "https://api.example.com" ∧
    cleanBaseUrl (some ("https://api.example.com" ++
      String.mk (List.replicate 2 '/'))) = some "https://api.example.com" ∧
    cleanBaseUrl (some "https://api.example.com") = some "https://api.example.com" := by
  have h := cleanBaseUrl_idempotent_amended "https://api.example.com" 2 (by omega)
    (by decide) (by decide) (by decide) (by decide) (by decide) (by decide)
  exact ⟨h.1, h.2.1, h.2.2.1, h.2.2.2.1⟩
